import Mathlib

/-!
Verification development for the hmessage repository (src/hmessage/embed.py and
src/hmessage/message.py): a shallow embedding of the data model and of the
merge operations, followed by theorems about the claims of the specification.
-/

namespace HMsg

/-! ### Python semantics helpers -/

/-- Python `str(x)` for an optional string: `str(None)` is the string "None". -/
def pyStrOfOpt (s : Option String) : String :=
  match s with
  | some s => s
  | none => "None"

/-- Python `a or b` on optional strings: `None` and the empty string are falsy. -/
def pyOrStr (a b : Option String) : Option String :=
  match a with
  | some s => if s = "" then b else some s
  | none => b

/-- Python `a or b` on optional colors (integers): `None` and `0` are falsy. -/
def pyOrColor (a b : Option Nat) : Option Nat :=
  match a with
  | some c => if c = 0 then b else some c
  | none => b

/-- Python list indexing `l[i]` index resolution: non-negative indices index
from the front, negative indices from the back, anything else is an
`IndexError` (`none`). -/
def pyResolveIdx (len : Nat) (i : Int) : Option Nat :=
  if 0 ≤ i then
    if i < (len : Int) then some i.toNat else none
  else
    if 0 ≤ i + (len : Int) then some (i + (len : Int)).toNat else none

/-- Python list indexing `l[i]` (with negative-index support), `none` on
`IndexError`. -/
def pyIndex? {α : Type} (l : List α) (i : Int) : Option α :=
  match pyResolveIdx l.length i with
  | some j => l[j]?
  | none => none

/-! ### Model of the `yarl` URL library (external collaborator), restricted to
what `embed.py` uses: reading the query string of a url and the `%` operator
(`update_query`), which replaces or appends one `key=value` pair. -/

/-- Split a list of characters at every occurrence of a separator. -/
def splitOnChar (c : Char) : List Char → List Char → List (List Char)
  | [], acc => [acc.reverse]
  | x :: xs, acc =>
    if x = c then acc.reverse :: splitOnChar c xs []
    else splitOnChar c xs (x :: acc)

/-- Split one `key=value` chunk of a query string (value may itself hold `=`). -/
def splitKeyValue (kv : List Char) : List Char × List Char :=
  match splitOnChar '=' kv [] with
  | [] => (kv, [])
  | [k] => (k, [])
  | k :: rest =>
    (k, (rest.map (fun p => p ++ ['='])).flatten.dropLast)

/-- Base part of a url (everything before the first question mark) and its
query, parsed as an ordered list of `key=value` pairs. -/
def urlSplit (url : String) : List Char × List (List Char × List Char) :=
  match splitOnChar '?' url.toList [] with
  | [] => (url.toList, [])
  | [b] => (b, [])
  | b :: q :: rest =>
    let qchars := q ++ ((rest.map (fun p => ['?'] ++ p)).flatten)
    if qchars = [] then (b, [])
    else (b, (splitOnChar '&' qchars []).map splitKeyValue)

/-- `yarl.URL(url).query.get(key)`. -/
def urlQueryGet (url : String) (key : String) : Option String :=
  match (urlSplit url).2.find? (fun p => p.1 = key.toList) with
  | some p => some (String.mk p.2)
  | none => none

/-- `yarl.URL(url) % {key: value}` (`update_query`): replace the pair for
`key` if present, else append it; render back to a string. -/
def urlUpdateQuery (url : String) (key value : String) : String :=
  let (base, params) := urlSplit url
  let params :=
    if params.any (fun p => p.1 = key.toList) then
      params.map (fun p => if p.1 = key.toList then (key.toList, value.toList) else p)
    else
      params ++ [(key.toList, value.toList)]
  let qchars := (params.map (fun p => p.1 ++ ['='] ++ p.2)).intersperse ['&']
  String.mk (base ++ ['?'] ++ qchars.flatten)

/-! ### Constants

The repository file `src/hmessage/constants.py` is not part of the sources we
were given; these two constants are modelled from the spec. -/

/-- Modelled from the spec: the fixed default card color (`DEFAULT_COLOR` in
the missing `constants.py`). The spec only calls it "a fixed default"; its
concrete value is irrelevant to every claim, so an arbitrary one is used. -/
def DEFAULT_COLOR : Nat := 5793266

/-- Modelled from the spec: the fixed query-string key used for card
designators (`DESIGNATOR_PARAMETER_NAME` in the missing `constants.py`); the
spec's worked example uses urls of the shape `https://x/1?designator=0`. -/
def DESIGNATOR_PARAMETER_NAME : String := "designator"

/-! ### Data model: the card ("embed") field contract of §6 of the spec,
as read/written by `embed.py` and `message.py` through `hikari.Embed`. -/

/-- An embed image (also used for thumbnails and videos): the url is the
authored identity; width and height are derived metadata present only on
received embeds. -/
structure EmbedImage where
  url : String
  height : Option Nat
  width : Option Nat
deriving DecidableEq, Repr

/-- `hikari.Embed.set_image(url)`: a fresh image holding only the url. -/
def mkImage (url : String) : EmbedImage :=
  { url := url, height := none, width := none }

/-- An embed author (also used for providers). -/
structure EmbedAuthor where
  name : Option String
  url : Option String
  icon : Option String
deriving DecidableEq, Repr

/-- An embed footer. -/
structure EmbedFooter where
  text : Option String
  icon : Option String
deriving DecidableEq, Repr

/-- An embed field. -/
structure EmbedField where
  name : String
  value : String
  is_inline : Bool
deriving DecidableEq, Repr

/-- A card (`hikari.Embed`), with exactly the fields the repository reads and
writes. -/
structure Embed where
  title : Option String
  description : Option String
  url : Option String
  color : Option Nat
  timestamp : Option Int
  image : Option EmbedImage
  thumbnail : Option EmbedImage
  video : Option EmbedImage
  author : Option EmbedAuthor
  provider : Option EmbedAuthor
  footer : Option EmbedFooter
  fields : List EmbedField
deriving DecidableEq, Repr

/-- The embed with every field absent. -/
def Embed.empty : Embed :=
  { title := none, description := none, url := none, color := none,
    timestamp := none, image := none, thumbnail := none, video := none,
    author := none, provider := none, footer := none, fields := [] }

/-- `hikari.Embed(color=DEFAULT_COLOR)`. -/
def colorOnlyEmbed : Embed :=
  { Embed.empty with color := some DEFAULT_COLOR }

/-- `hikari.Embed(description=c, color=DEFAULT_COLOR)`. -/
def descriptionEmbed (c : String) : Embed :=
  { Embed.empty with description := some c, color := some DEFAULT_COLOR }

/-- `hikari.Embed(color=DEFAULT_COLOR, description=".")`, the placeholder card
appended by `merge_attachements_into_embed` when `new_embed` is set. -/
def placeholderEmbed : Embed :=
  { Embed.empty with description := some ".", color := some DEFAULT_COLOR }

/-! ### Errors -/

/-- The Python exceptions the embedded code can raise. -/
inductive PyError where
  | valueError (msg : String)
  | indexError
deriving DecidableEq, Repr

/-! ### `src/hmessage/embed.py`: `MultiImageEmbedList`

The class is a Python `list` subclass; the group is embedded as a plain
`List Embed`. -/

namespace MultiImageEmbedList

/-- The minimal follow-up card built inside `add_image` when the last card
already carries an image: `hikari.Embed(url=self[0].url, description="",
color=DEFAULT_COLOR)` followed by `set_image(image)`. -/
def minimalEmbed (url : Option String) (image : String) : Embed :=
  { Embed.empty with
    url := url, description := some "",
    color := some DEFAULT_COLOR, image := some (mkImage image) }

/-- Set the image of the last card of the group (`self[-1].set_image(image)`). -/
def setLastImage : List Embed → String → List Embed
  | [], _ => []
  | [e], image => [{ e with image := some (mkImage image) }]
  | e :: e2 :: es, image => e :: setLastImage (e2 :: es) image

/-- `MultiImageEmbedList.add_image` (embed.py lines 58-70): if the last card
already has an image, append a new minimal card carrying the image, using the
first card's url; else set the last card's image. On an empty list the source
would raise `IndexError` at `self[-1]`; a group is never empty, so that case
is mapped to the empty list. -/
def add_image (l : List Embed) (image : String) : List Embed :=
  match l with
  | [] => []
  | first :: _ =>
    if ((l.getLast?).getD first).image.isSome then
      l ++ [minimalEmbed first.url image]
    else
      setLastImage l image

/-- `MultiImageEmbedList.add_images` (embed.py lines 72-76). -/
def add_images (l : List Embed) (images : List String) : List Embed :=
  images.foldl add_image l

/-- The first card built by `MultiImageEmbedList.__init__` (embed.py lines
30-46) before any image is attached: description and color defaulted under
Python truthiness, the url stringified (so a `None` url becomes the string
"None"), and the designator written into the url query. -/
def initFirstCard (url : Option String) (designator : Option Int)
    (title : Option String) (description : Option String) (color : Option Nat)
    (timestamp : Option Int) : Embed :=
  let description := match description with
    | some d => if d = "" then "" else d
    | none => ""
  let color := match pyOrColor color none with
    | some c => c
    | none => DEFAULT_COLOR
  let urlStr := pyStrOfOpt url
  let designatorStr := match urlQueryGet urlStr DESIGNATOR_PARAMETER_NAME with
    | some s => s
    | none => toString (designator.getD 0)
  let finalUrl := urlUpdateQuery urlStr DESIGNATOR_PARAMETER_NAME designatorStr
  { Embed.empty with
    title := title, description := some description,
    url := some finalUrl, color := some color, timestamp := timestamp }

/-- `MultiImageEmbedList.__init__` (embed.py lines 14-56). The keyword
arguments actually used by this repository are explicit parameters; `srcImage`
stands for a directly supplied `image` keyword (always rejected). The first
image of `images` is popped onto the first card (no-op when empty); the rest
go through `add_image`. -/
def init (url : Option String) (designator : Option Int) (images : List String)
    (title : Option String) (description : Option String) (color : Option Nat)
    (timestamp : Option Int) (srcImage : Option EmbedImage) :
    Except PyError (List Embed) :=
  if srcImage.isSome then
    .error (.valueError
      ("Cannot set image property when using MultiImageEmbedList, "
        ++ "use images instead."))
  else
    let embed := initFirstCard url designator title description color timestamp
    match images with
    | [] => .ok (add_images [embed] [])
    | i :: rest => .ok (add_images [{ embed with image := some (mkImage i) }] rest)

/-- Copy image, footer, thumbnail, author and fields from the source embed
onto the first card of the group (embed.py lines 101-115); each is copied only
when present on the source. -/
def copyExtras (src : Embed) (first : Embed) : Embed :=
  let first := match src.image with
    | some img => { first with image := some (mkImage img.url) }
    | none => first
  let first := match src.footer with
    | some f => { first with footer := some f }
    | none => first
  let first := match src.thumbnail with
    | some tn => { first with thumbnail := some (mkImage tn.url) }
    | none => first
  let first := match src.author with
    | some a => { first with author := some a }
    | none => first
  { first with fields := first.fields ++ src.fields }

/-- `MultiImageEmbedList.from_embed` (embed.py lines 78-120). -/
def from_embed (embed : Embed) (designator : Int) (images : List String)
    (default_url : Option String) : Except PyError (List Embed) :=
  match init (pyOrStr embed.url default_url) (some designator) []
      embed.title embed.description (pyOrColor embed.color (some DEFAULT_COLOR))
      embed.timestamp none with
  | .error e => .error e
  | .ok mie =>
    match mie with
    | [] => .error .indexError
    | first :: rest =>
      if first.url = none then
        .error (.valueError "If no default_url is provided then embeds must have a url.")
      else
        .ok (add_images (copyExtras embed first :: rest) images)

end MultiImageEmbedList

/-! ### `src/hmessage/message.py` -/

/-- An attachment held by a draft: either a full attachment object exposing
`url` and `media_type` (as on a wire message), or the bare url string that
`HMessage.from_message` stores. -/
inductive Attachment where
  | file (url : String) (media_type : String)
  | urlOnly (url : String)
deriving DecidableEq, Repr

/-- The `url` of an attachment. The source only reads `attachment.url` on
objects that passed the `hasattr(attachment, "media_type")` test, i.e. on
`file` attachments. -/
def Attachment.url : Attachment → String
  | .file u _ => u
  | .urlOnly u => u

/-- The classification used by `merge_attachements_into_embed` (message.py
lines 213-215): `hasattr(attachment, "media_type") and
str(attachment.media_type).startswith("image")`. A bare url string has no
`media_type` attribute, so it is never image-typed. -/
def Attachment.isImageTyped : Attachment → Bool
  | .file _ mt => List.isPrefixOf "image".toList mt.toList
  | .urlOnly _ => false

/-- `HMessageEmbed.from_embed` (message.py lines 32-47): every slot of the
source embed is passed through `from_received_embed` unchanged. -/
def HMessageEmbed.from_embed (e : Embed) : Embed :=
  { title := e.title, description := e.description, url := e.url,
    color := e.color, timestamp := e.timestamp, image := e.image,
    thumbnail := e.thumbnail, video := e.video, author := e.author,
    provider := e.provider, footer := e.footer, fields := e.fields }

/-- The draft (`HMessage`, message.py lines 50-60). The
`embed_default_colour` field is excluded from equality in the source and
never read by any operation under scrutiny; it is omitted. -/
structure HMessage where
  content : String
  embeds : List Embed
  attachments : List Attachment
  id : Int
deriving DecidableEq, Repr

namespace HMessage

/-- The attrs validators (message.py lines 62-77), run in field order at
construction: content length at most 2000, at most 10 embeds, at most 10
attachments. -/
def validate (content : String) (embeds : List Embed)
    (attachments : List Attachment) (id : Int) : Except PyError HMessage :=
  if content.toList.length > 2000 then
    .error (.valueError "Cannot send more than 2000 characters in a single message")
  else if embeds.length > 10 then
    .error (.valueError "Cannot send more than 10 embeds in a single message")
  else if attachments.length > 10 then
    .error (.valueError "Cannot send more than 10 attachments in a single message")
  else
    .ok { content := content, embeds := embeds, attachments := attachments, id := id }

/-- A wire attachment as exposed by the input contract (§6 of the spec). -/
structure WireAttachment where
  url : String
  media_type : String
deriving DecidableEq, Repr

/-- A wire message as exposed by the input contract (§6 of the spec):
`content` may be null, embeds and attachments are ordered lists. -/
structure WireMessage where
  content : Option String
  embeds : List Embed
  attachments : List WireAttachment
  id : Int
deriving DecidableEq, Repr

/-- `HMessage.from_message` (message.py lines 79-87): content defaults to ""
(Python `or`, under which the empty string also maps to ""), embeds pass
through `HMessageEmbed.from_embed`, attachments are replaced by their url
strings; the attrs validators run at construction. -/
def from_message (message : WireMessage) : Except PyError HMessage :=
  validate
    (match message.content with
      | some c => if c = "" then "" else c
      | none => "")
    (message.embeds.map HMessageEmbed.from_embed)
    (message.attachments.map (fun att => Attachment.urlOnly att.url))
    message.id

/-- The wire-send payload record returned by `to_message_kwargs`. -/
structure MessageKwargs where
  content : String
  embeds : List Embed
  attachments : List Attachment
deriving DecidableEq, Repr

/-- `HMessage.to_message_kwargs` (message.py lines 89-96): pure projection. -/
def to_message_kwargs (m : HMessage) : MessageKwargs :=
  { content := m.content, embeds := m.embeds, attachments := m.attachments }

/-- `HMessage.__add__` (message.py lines 98-113): join contents with a single
newline unless the left content ends with one or the right content starts
with one; concatenate embed and attachment sequences; construct a fresh
draft, which re-runs the validators. -/
def add (a b : HMessage) : Except PyError HMessage :=
  let use_endline := !(a.content.toList.getLast? == some (Char.ofNat 10)
    || b.content.toList.head? == some (Char.ofNat 10))
  validate (a.content ++ (if use_endline then "\n" else "") ++ b.content)
    (a.embeds ++ b.embeds) (a.attachments ++ b.attachments) 0

/-- `HMessage.merge_content_into_embed` (message.py lines 115-146). The
source cannot raise here: the index is taken modulo the embed count. The
`str(self.content or "")` on line 125 is the content itself, since the attrs
converter keeps `content` a string. -/
def merge_content_into_embed (m : HMessage) (embed_no : Int) (prepend : Bool) :
    HMessage :=
  let content := m.content
  let m := { m with content := "" }
  if m.embeds = [] then
    { m with embeds := [descriptionEmbed content] }
  else
    let base : Nat := if m.embeds.length = 0 then 1 else m.embeds.length
    let j := (embed_no % (base : Int)).toNat
    match m.embeds[j]? with
    | none => m
    | some e =>
      let desc := (e.description).getD ""
      let newDesc := if prepend then content ++ "\n\n" ++ desc
        else desc ++ "\n\n" ++ content
      { m with embeds := m.embeds.set j { e with description := some newDesc } }

/-- Outcome of a mutating merge call: the Python method either returns
`self` or falls off the end (returning `None`); both carry the state of the
draft after the call. -/
inductive MergeReturn where
  | selfRet (m : HMessage)
  | noneRet (m : HMessage)
deriving DecidableEq, Repr

/-- The draft state carried by a merge outcome. -/
def MergeReturn.state : MergeReturn → HMessage
  | .selfRet m => m
  | .noneRet m => m

/-- Insert the group's cards back at the popped position (message.py lines
176-177 and 227-228): inserting the reversed group one card at a time at
index `j` places the group, in order, at index `j`. -/
def spliceAt (l : List Embed) (j : Nat) (group : List Embed) : List Embed :=
  l.take j ++ group ++ l.drop j

/-- Body of `merge_url_as_image_into_embed` after the `None` check and the
auto-creation of a default card (message.py lines 167-179): wrap the index,
pop the selected card, expand it through `MultiImageEmbedList.from_embed`
with the url as the single image, splice the group back. -/
def mergeUrlCore (m : HMessage) (url : String) (embed_no : Int)
    (designator : Int) : Except (PyError × HMessage) MergeReturn :=
  let j := (embed_no % (m.embeds.length : Int)).toNat
  match m.embeds[j]? with
  | none => .error (.indexError, m)
  | some e =>
    let m2 := { m with embeds := m.embeds.eraseIdx j }
    match MultiImageEmbedList.from_embed e designator [url] none with
    | .error err => .error (err, m2)
    | .ok group => .ok (.selfRet { m2 with embeds := spliceAt m2.embeds j group })

/-- `HMessage.merge_url_as_image_into_embed` (message.py lines 157-179).
With a `None` url the method logs a warning and returns `None` (a bare
`return`); otherwise it auto-creates a default card when there is none and
runs `mergeUrlCore`. An error outcome carries the draft state at the moment
the exception propagates. -/
def merge_url_as_image_into_embed (m : HMessage) (url : Option String)
    (embed_no : Int) (designator : Int) : Except (PyError × HMessage) MergeReturn :=
  match url with
  | none => .ok (.noneRet m)
  | some url =>
    mergeUrlCore (if m.embeds = [] then { m with embeds := [colorOnlyEmbed] } else m)
      url embed_no designator

/-- Set `self.embeds[embed_no].url = None` with raw Python indexing
(message.py line 154); `none` on `IndexError`. -/
def pySetUrlNone (l : List Embed) (i : Int) : Option (List Embed) :=
  match pyResolveIdx l.length i with
  | some j =>
    match l[j]? with
    | some e => some (l.set j { e with url := none })
    | none => none
  | none => none

/-- `HMessage.merge_embed_url_as_embed_image_into_embed` (message.py lines
148-155): reads `self.embeds[embed_no].url` with raw (non-wrapping) Python
indexing, delegates to `merge_url_as_image_into_embed`, then nulls
`self.embeds[embed_no].url`, again with raw indexing. -/
def merge_embed_url_as_embed_image_into_embed (m : HMessage) (embed_no : Int)
    (designator : Int) : Except (PyError × HMessage) HMessage :=
  match pyIndex? m.embeds embed_no with
  | none => .error (.indexError, m)
  | some e =>
    match merge_url_as_image_into_embed m e.url embed_no designator with
    | .error em => .error em
    | .ok r =>
      let m2 := r.state
      match pySetUrlNone m2.embeds embed_no with
      | none => .error (.indexError, m2)
      | some embeds2 => .ok { m2 with embeds := embeds2 }

/-- The image-url/remaining partition of the attachment loop
(message.py lines 210-218), preserving order. -/
def partitionAttachments : List Attachment → List String × List Attachment
  | [] => ([], [])
  | a :: rest =>
    let p := partitionAttachments rest
    if a.isImageTyped then (a.url :: p.1, p.2) else (p.1, a :: p.2)

/-- Body of `merge_attachements_into_embed` after card auto-creation and the
`new_embed` placeholder handling (message.py lines 208-232): wrap the index,
partition the attachments into image-typed urls and the rest, expand the
selected card through `MultiImageEmbedList.from_embed`, splice the group
back, keep the non-image attachments. -/
def mergeAttCore (m : HMessage) (embed_no : Int) (designator : Int)
    (default_url : Option String) : Except (PyError × HMessage) HMessage :=
  let j := (embed_no % (m.embeds.length : Int)).toNat
  let parts := partitionAttachments m.attachments
  match m.embeds[j]? with
  | none => .error (.indexError, m)
  | some e =>
    let m2 := { m with embeds := m.embeds.eraseIdx j }
    match MultiImageEmbedList.from_embed e designator parts.1 default_url with
    | .error err => .error (err, m2)
    | .ok group =>
      .ok { m2 with embeds := spliceAt m2.embeds j group, attachments := parts.2 }

/-- `HMessage.merge_attachements_into_embed` (message.py lines 186-232):
auto-create a default card if there is none; with `new_embed`, retarget
`embed_no` to the placeholder card appended at the end; then run
`mergeAttCore`. An error outcome carries the draft state at the moment the
exception propagates (the target card already popped, attachments
untouched). -/
def merge_attachements_into_embed (m : HMessage) (embed_no : Int)
    (designator : Int) (new_embed : Bool) (default_url : Option String) :
    Except (PyError × HMessage) HMessage :=
  let m := if m.embeds = [] then { m with embeds := [colorOnlyEmbed] } else m
  let embed_no := if new_embed then (m.embeds.length : Int) else embed_no
  let m := if new_embed then { m with embeds := m.embeds ++ [placeholderEmbed] } else m
  mergeAttCore m embed_no designator default_url

/-- `HMessage.remove_all_embed_thumbnails` (message.py lines 181-184). -/
def remove_all_embed_thumbnails (m : HMessage) : HMessage :=
  { m with embeds := m.embeds.map (fun e => { e with thumbnail := none }) }

end HMessage

/-! ### Further definitions used by the verification -/

/-- Card equality of the wire round-trip contract: structural on every field
except the image, which is compared by its url only (`HMessageEmbed.__eq__`,
message.py lines 14-30, overrides `_image` comparison to
`str(self._image.url) != str(other._image.url)`). -/
def embedEqImageUrlOnly (a b : Embed) : Bool :=
  a.title == b.title && a.description == b.description && a.url == b.url &&
  a.color == b.color && a.timestamp == b.timestamp &&
  a.image.map EmbedImage.url == b.image.map EmbedImage.url &&
  a.thumbnail == b.thumbnail && a.video == b.video && a.author == b.author &&
  a.provider == b.provider && a.footer == b.footer && a.fields == b.fields

/-- The number of cards of a draft returned normally by a fallible merge
operation; `none` when the call raised. -/
def okEmbedCount : Except (PyError × HMessage) HMessage → Option Nat
  | .ok m => some m.embeds.length
  | .error _ => none

/-! Concrete fixtures used by witnesses and counterexamples. -/

/-- A concrete card with a url and no image. -/
def cardA : Embed := { Embed.empty with url := some "https://a/1" }

/-- A second concrete card with a url and no image. -/
def cardB : Embed := { Embed.empty with url := some "https://b/2" }

/-- Ten image-typed attachments. -/
def tenImageAttachments : List Attachment :=
  (List.range 10).map (fun i => Attachment.file ("https://i/" ++ toString i) "image/png")

/-- A draft with two cards and ten image attachments: a valid draft that
`merge_attachements_into_embed` expands past the ten-card limit. -/
def overflowDraft : HMessage :=
  { content := "", embeds := [cardA, cardB], attachments := tenImageAttachments, id := 0 }

/-- A valid draft with exactly two cards. -/
def twoCardDraft : HMessage :=
  { content := "", embeds := [cardA, cardB], attachments := [], id := 0 }

/-- Draft A of the spec's concatenation example. -/
def draftFoo : HMessage :=
  { content := "foo", embeds := [cardA], attachments := [], id := 0 }

/-- Draft B of the spec's concatenation example (content ends in a newline). -/
def draftBarNl : HMessage :=
  { content := "bar\n", embeds := [cardB], attachments := [], id := 0 }

/-- A card-less draft with content "hi". -/
def draftHi : HMessage :=
  { content := "hi", embeds := [], attachments := [], id := 0 }

/-- A concrete wire message within all limits. -/
def wireMsg : HMessage.WireMessage :=
  { content := some "hello", embeds := [cardA],
    attachments := [{ url := "https://f/1", media_type := "image/png" }], id := 7 }

/-- The draft `from_message` produces from `wireMsg`. -/
def wireDraft : HMessage :=
  { content := "hello", embeds := [cardA],
    attachments := [Attachment.urlOnly "https://f/1"], id := 7 }

/-- The draft `draftFoo + draftBarNl` produces. -/
def fooBarDraft : HMessage :=
  { content := "foo\nbar\n", embeds := [cardA, cardB], attachments := [], id := 0 }

/-- One card, one image-typed attachment and one bare-url attachment (as
stored by `from_message`). -/
def mixedDraft : HMessage :=
  { content := "", embeds := [cardA],
    attachments := [Attachment.file "https://img/1" "image/png",
      Attachment.urlOnly "https://bare/1"], id := 0 }

/-- The draft `merge_attachements_into_embed` produces from `mixedDraft`. -/
def mixedResult : HMessage :=
  { content := "",
    embeds := [{ Embed.empty with
      description := some "", url := some "https://a/1?designator=0",
      color := some DEFAULT_COLOR, image := some (mkImage "https://img/1") }],
    attachments := [Attachment.urlOnly "https://bare/1"], id := 0 }

/-! ### Lemmas about the multi-image group -/

namespace MultiImageEmbedList

lemma setLastImage_map (img : String) :
    ∀ l : List Embed, l ≠ [] →
      (setLastImage l img).map Embed.image
        = (l.map Embed.image).dropLast ++ [some (mkImage img)]
  | [], h => absurd rfl h
  | [_], _ => rfl
  | e :: e2 :: es, _ => by
    have ih := setLastImage_map img (e2 :: es) (by simp)
    simp only [setLastImage, List.map_cons] at ih ⊢
    rw [ih]
    simp

lemma setLastImage_getLast? (img : String) :
    ∀ l : List Embed, l ≠ [] →
      ∃ e, (setLastImage l img).getLast? = some e ∧ e.image = some (mkImage img)
  | [], h => absurd rfl h
  | [e], _ => ⟨{ e with image := some (mkImage img) }, rfl, rfl⟩
  | e :: e2 :: es, _ => by
    obtain ⟨le, hle, him⟩ := setLastImage_getLast? img (e2 :: es) (by simp)
    refine ⟨le, ?_, him⟩
    rw [show setLastImage (e :: e2 :: es) img = e :: setLastImage (e2 :: es) img from rfl]
    rw [List.getLast?_cons, hle]
    rfl

lemma add_image_cons_last_some (first : Embed) (rest : List Embed) (le : Embed)
    (img : String) (h : (first :: rest).getLast? = some le)
    (him : le.image.isSome = true) :
    add_image (first :: rest) img = (first :: rest) ++ [minimalEmbed first.url img] := by
  simp only [add_image, h, Option.getD_some, him, if_true]

lemma add_image_cons_last_none (first : Embed) (rest : List Embed) (le : Embed)
    (img : String) (h : (first :: rest).getLast? = some le)
    (him : le.image = none) :
    add_image (first :: rest) img = setLastImage (first :: rest) img := by
  simp only [add_image, h, Option.getD_some, him, Option.isSome_none,
    Bool.false_eq_true, if_false]

lemma add_images_map_of_last_some :
    ∀ (imgs : List String) (l : List Embed) (le : Embed),
      l.getLast? = some le → le.image.isSome = true →
      (add_images l imgs).map Embed.image
        = l.map Embed.image ++ imgs.map (fun s => some (mkImage s))
  | [], l, le, _, _ => by simp [add_images]
  | i :: rest, l, le, h, him => by
    match l, h with
    | first :: tail, h =>
      have hstep : add_images (first :: tail) (i :: rest)
          = add_images ((first :: tail) ++ [minimalEmbed first.url i]) rest := by
        rw [add_images, List.foldl_cons,
          add_image_cons_last_some first tail le i h him]
        rfl
      rw [hstep,
        add_images_map_of_last_some rest ((first :: tail) ++ [minimalEmbed first.url i])
          (minimalEmbed first.url i) (List.getLast?_concat _) rfl]
      simp [minimalEmbed]

lemma setLastImage_length (img : String) :
    ∀ l : List Embed, (setLastImage l img).length = l.length
  | [] => rfl
  | [_] => rfl
  | e :: e2 :: es => by
    have ih := setLastImage_length img (e2 :: es)
    simp only [setLastImage, List.length_cons] at ih ⊢
    omega

lemma length_le_add_image (l : List Embed) (img : String) :
    l.length ≤ (add_image l img).length := by
  match l with
  | [] => simp [add_image]
  | first :: rest =>
    rw [add_image]
    by_cases h : (((first :: rest).getLast?).getD first).image.isSome = true
    · simp [h]
    · rw [if_neg h, setLastImage_length]

lemma length_le_add_images :
    ∀ (imgs : List String) (l : List Embed), l.length ≤ (add_images l imgs).length
  | [], _ => le_refl _
  | i :: rest, l => by
    rw [add_images, List.foldl_cons]
    exact le_trans (length_le_add_image l i) (length_le_add_images rest (add_image l i))

/-- The exact group `from_embed` builds: the source's `url == None` validation
never fires, because `__init__` stringifies the url (a `None` url becomes the
string "None"), so the first card's url is always present. -/
lemma from_embed_eq (e : Embed) (d : Int) (imgs : List String) (du : Option String) :
    from_embed e d imgs du
      = .ok (add_images
          [copyExtras e (initFirstCard (pyOrStr e.url du) (some d) e.title
            e.description (pyOrColor e.color (some DEFAULT_COLOR)) e.timestamp)]
          imgs) := by
  have h0 : init (pyOrStr e.url du) (some d) [] e.title e.description
      (pyOrColor e.color (some DEFAULT_COLOR)) e.timestamp none
      = .ok [initFirstCard (pyOrStr e.url du) (some d) e.title e.description
          (pyOrColor e.color (some DEFAULT_COLOR)) e.timestamp] := rfl
  have h1 : ∃ s, (initFirstCard (pyOrStr e.url du) (some d) e.title e.description
      (pyOrColor e.color (some DEFAULT_COLOR)) e.timestamp).url = some s := ⟨_, rfl⟩
  obtain ⟨s, hs⟩ := h1
  rw [from_embed, h0]
  simp [hs]

lemma copyExtras_image (src f : Embed) :
    (copyExtras src f).image
      = match src.image with
        | some im0 => some (mkImage im0.url)
        | none => f.image := by
  unfold copyExtras
  cases src.image <;> cases src.footer <;> cases src.thumbnail <;>
    cases src.author <;> simp

/-- `from_embed` always succeeds, and the images of the returned group are:
the source card's image url first (if the source had an image), then the
supplied image urls, one card each, in input order. -/
lemma from_embed_spec (e : Embed) (d : Int) (imgs : List String) (du : Option String) :
    ∃ g, from_embed e d imgs du = .ok g ∧
      g.map Embed.image =
        (match e.image with
          | some im0 => some (mkImage im0.url) :: imgs.map (fun s => some (mkImage s))
          | none =>
            match imgs with
            | [] => [none]
            | i :: rest => some (mkImage i) :: rest.map (fun s => some (mkImage s))) := by
  rw [from_embed_eq]
  set c0 := initFirstCard (pyOrStr e.url du) (some d) e.title e.description
    (pyOrColor e.color (some DEFAULT_COLOR)) e.timestamp with hc0
  refine ⟨_, rfl, ?_⟩
  have hc0img : c0.image = none := rfl
  have hfirst : (copyExtras e c0).image
      = match e.image with
        | some im0 => some (mkImage im0.url)
        | none => none := by
    rw [copyExtras_image e c0, hc0img]
  cases him : e.image with
  | some im0 =>
    have : (copyExtras e c0).image = some (mkImage im0.url) := by
      rw [hfirst, him]
    rw [add_images_map_of_last_some imgs [copyExtras e c0] (copyExtras e c0) rfl
      (by rw [this]; rfl)]
    simp [this]
  | none =>
    have hnone : (copyExtras e c0).image = none := by rw [hfirst, him]
    cases imgs with
    | nil => simp [add_images, hnone]
    | cons i rest =>
      have hstep : add_images [copyExtras e c0] (i :: rest)
          = add_images [{ copyExtras e c0 with image := some (mkImage i) }] rest := by
        rw [add_images, List.foldl_cons,
          add_image_cons_last_none (copyExtras e c0) [] (copyExtras e c0) i rfl hnone]
        rfl
      rw [hstep,
        add_images_map_of_last_some rest [{ copyExtras e c0 with image := some (mkImage i) }]
          _ rfl rfl]
      simp

/-- The group is never empty. -/
lemma from_embed_ne_nil (e : Embed) (d : Int) (imgs : List String)
    (du : Option String) (g : List Embed) (h : from_embed e d imgs du = .ok g) :
    g ≠ [] := by
  rw [from_embed_eq] at h
  have hlen := length_le_add_images imgs
    [copyExtras e (initFirstCard (pyOrStr e.url du) (some d) e.title
      e.description (pyOrColor e.color (some DEFAULT_COLOR)) e.timestamp)]
  cases h
  intro hnil
  rw [hnil] at hlen
  simp at hlen

end MultiImageEmbedList

/-! ### Lemmas about Python indexing -/

lemma emod_toNat_lt (k : Int) (n : Nat) (hn : 0 < n) : (k % (n : Int)).toNat < n := by
  have h1 : 0 ≤ k % (n : Int) := Int.emod_nonneg k (by omega)
  have h2 : k % (n : Int) < (n : Int) := Int.emod_lt_of_pos k (by omega)
  omega

lemma pyResolveIdx_lt {len : Nat} {i : Int} {j : Nat}
    (h : pyResolveIdx len i = some j) : j < len := by
  unfold pyResolveIdx at h
  split at h
  · split at h
    · simp only [Option.some.injEq] at h
      omega
    · simp at h
  · split at h
    · simp only [Option.some.injEq] at h
      omega
    · simp at h

lemma pyResolveIdx_mono {len len' : Nat} (hle : len ≤ len') {i : Int} {j : Nat}
    (h : pyResolveIdx len i = some j) : ∃ j2, pyResolveIdx len' i = some j2 := by
  unfold pyResolveIdx at h ⊢
  split at h
  · rename_i h0
    split at h
    · rename_i h1
      rw [if_pos h0, if_pos (by omega)]
      exact ⟨_, rfl⟩
    · simp at h
  · rename_i h0
    split at h
    · rename_i h1
      rw [if_neg h0, if_pos (by omega)]
      exact ⟨_, rfl⟩
    · simp at h

lemma pyResolveIdx_none_of_out (len : Nat) (i : Int)
    (h : (len : Int) ≤ i ∨ i + (len : Int) < 0) : pyResolveIdx len i = none := by
  unfold pyResolveIdx
  rcases h with h | h
  · rw [if_pos (by omega), if_neg (by omega)]
  · rw [if_neg (by omega), if_neg (by omega)]

lemma pyIndex?_none_of_out {α : Type} (l : List α) (i : Int)
    (h : (l.length : Int) ≤ i ∨ i + (l.length : Int) < 0) : pyIndex? l i = none := by
  rw [pyIndex?, pyResolveIdx_none_of_out l.length i h]

lemma pyIndex?_resolve {α : Type} {l : List α} {i : Int} {e : α}
    (h : pyIndex? l i = some e) : ∃ j, pyResolveIdx l.length i = some j := by
  rw [pyIndex?] at h
  cases hr : pyResolveIdx l.length i with
  | some j => exact ⟨j, rfl⟩
  | none =>
    rw [hr] at h
    simp at h

lemma length_eraseIdx_lt {α : Type} :
    ∀ (l : List α) (j : Nat), j < l.length → (l.eraseIdx j).length = l.length - 1
  | [], j, h => by simp at h
  | _ :: t, 0, _ => by simp [List.eraseIdx]
  | a :: t, j + 1, h => by
    simp only [List.eraseIdx, List.length_cons]
    rw [length_eraseIdx_lt t j (by simpa using h)]
    have : 0 < t.length := by
      have : j < t.length := by simpa using h
      omega
    omega

namespace HMessage

lemma spliceAt_length (l : List Embed) (j : Nat) (g : List Embed)
    (h : j ≤ l.length) :
    (spliceAt l j g).length = l.length + g.length := by
  unfold spliceAt
  simp only [List.length_append, List.length_take, List.length_drop]
  omega

lemma pySetUrlNone_isSome {l : List Embed} {i : Int} {j : Nat}
    (h : pyResolveIdx l.length i = some j) : ∃ l2, pySetUrlNone l i = some l2 := by
  have hj := pyResolveIdx_lt h
  have hget : l[j]? = some l[j] := List.getElem?_eq_getElem hj
  simp only [pySetUrlNone, h, hget]
  exact ⟨_, rfl⟩

/-- Full inversion of `mergeUrlCore` on a draft with at least one card: it
always succeeds, returning `self`; content, attachments and id are untouched
and the card sequence is the original with the selected card replaced by the
group built from it. -/
lemma mergeUrlCore_spec (m : HMessage) (hm : m.embeds ≠ []) (u : String)
    (k d : Int) :
    ∃ r g, mergeUrlCore m u k d = .ok (.selfRet r)
      ∧ m.embeds[(k % (m.embeds.length : Int)).toNat]?
          = some (m.embeds.get ⟨(k % (m.embeds.length : Int)).toNat,
              emod_toNat_lt k m.embeds.length (List.length_pos.mpr hm)⟩)
      ∧ MultiImageEmbedList.from_embed
          (m.embeds.get ⟨(k % (m.embeds.length : Int)).toNat,
            emod_toNat_lt k m.embeds.length (List.length_pos.mpr hm)⟩) d [u] none
          = .ok g
      ∧ r.embeds = spliceAt (m.embeds.eraseIdx ((k % (m.embeds.length : Int)).toNat))
          ((k % (m.embeds.length : Int)).toNat) g
      ∧ r.content = m.content ∧ r.attachments = m.attachments ∧ r.id = m.id
      ∧ m.embeds.length ≤ r.embeds.length := by
  have hpos : 0 < m.embeds.length := List.length_pos.mpr hm
  have hj : (k % (m.embeds.length : Int)).toNat < m.embeds.length :=
    emod_toNat_lt k m.embeds.length hpos
  set j := (k % (m.embeds.length : Int)).toNat with hjdef
  have hget : m.embeds[j]? = some (m.embeds.get ⟨j, hj⟩) := by
    rw [List.getElem?_eq_getElem hj]
    rfl
  obtain ⟨g, hg, _⟩ := MultiImageEmbedList.from_embed_spec
    (m.embeds.get ⟨j, hj⟩) d [u] none
  have hgne : g ≠ [] := MultiImageEmbedList.from_embed_ne_nil _ _ _ _ _ hg
  have hglen : 0 < g.length := List.length_pos.mpr hgne
  refine ⟨{ m with embeds := spliceAt (m.embeds.eraseIdx j) j g }, g, ?_,
    hget, hg, rfl, rfl, rfl, rfl, ?_⟩
  · simp only [mergeUrlCore, ← hjdef, hget, hg]
  · show m.embeds.length ≤ (spliceAt (m.embeds.eraseIdx j) j g).length
    rw [spliceAt_length _ _ _ (by rw [length_eraseIdx_lt _ _ hj]; omega),
      length_eraseIdx_lt _ _ hj]
    omega

/-- Full inversion of `mergeAttCore` on a draft with at least one card. -/
lemma mergeAttCore_spec (m : HMessage) (hm : m.embeds ≠ []) (k d : Int)
    (du : Option String) :
    ∃ r g, mergeAttCore m k d du = .ok r
      ∧ MultiImageEmbedList.from_embed
          (m.embeds.get ⟨(k % (m.embeds.length : Int)).toNat,
            emod_toNat_lt k m.embeds.length (List.length_pos.mpr hm)⟩) d
          (partitionAttachments m.attachments).1 du
          = .ok g
      ∧ r.embeds = spliceAt (m.embeds.eraseIdx ((k % (m.embeds.length : Int)).toNat))
          ((k % (m.embeds.length : Int)).toNat) g
      ∧ r.content = m.content
      ∧ r.attachments = (partitionAttachments m.attachments).2
      ∧ r.id = m.id
      ∧ m.embeds.length ≤ r.embeds.length := by
  have hpos : 0 < m.embeds.length := List.length_pos.mpr hm
  have hj : (k % (m.embeds.length : Int)).toNat < m.embeds.length :=
    emod_toNat_lt k m.embeds.length hpos
  set j := (k % (m.embeds.length : Int)).toNat with hjdef
  have hget : m.embeds[j]? = some (m.embeds.get ⟨j, hj⟩) := by
    rw [List.getElem?_eq_getElem hj]
    rfl
  obtain ⟨g, hg, _⟩ := MultiImageEmbedList.from_embed_spec
    (m.embeds.get ⟨j, hj⟩) d (partitionAttachments m.attachments).1 du
  have hgne : g ≠ [] := MultiImageEmbedList.from_embed_ne_nil _ _ _ _ _ hg
  have hglen : 0 < g.length := List.length_pos.mpr hgne
  refine ⟨{ m with
      embeds := spliceAt (m.embeds.eraseIdx j) j g,
      attachments := (partitionAttachments m.attachments).2 }, g, ?_,
    hg, rfl, rfl, rfl, rfl, ?_⟩
  · simp only [mergeAttCore, ← hjdef, hget, hg]
  · show m.embeds.length ≤ (spliceAt (m.embeds.eraseIdx j) j g).length
    rw [spliceAt_length _ _ _ (by rw [length_eraseIdx_lt _ _ hj]; omega),
      length_eraseIdx_lt _ _ hj]
    omega

/-- `merge_url_as_image_into_embed` never raises; whichever way it returns,
content, attachments and id are untouched and the card sequence never
shrinks. -/
lemma merge_url_spec (m : HMessage) (url : Option String) (k d : Int) :
    ∃ r, merge_url_as_image_into_embed m url k d = .ok r
      ∧ r.state.content = m.content
      ∧ r.state.attachments = m.attachments
      ∧ r.state.id = m.id
      ∧ m.embeds.length ≤ r.state.embeds.length := by
  cases url with
  | none => exact ⟨.noneRet m, rfl, rfl, rfl, rfl, le_refl _⟩
  | some u =>
    by_cases hm : m.embeds = []
    · obtain ⟨r, g, hok, hget, hg, hemb, hc, ha, hid, hlen⟩ :=
        mergeUrlCore_spec { m with embeds := [colorOnlyEmbed] } (by simp) u k d
      refine ⟨.selfRet r, ?_, hc, ha, hid, ?_⟩
      · simp only [merge_url_as_image_into_embed, if_pos hm]
        exact hok
      · rw [hm]
        exact Nat.zero_le _
    · obtain ⟨r, g, hok, hget, hg, hemb, hc, ha, hid, hlen⟩ :=
        mergeUrlCore_spec m hm u k d
      refine ⟨.selfRet r, ?_, hc, ha, hid, hlen⟩
      simp only [merge_url_as_image_into_embed, if_neg hm]
      exact hok

/-- `merge_attachements_into_embed` never raises; content and id are
untouched and the attachments become exactly the non-image-typed part of the
original attachment list (in order). -/
lemma merge_att_spec (m : HMessage) (k d : Int) (ne : Bool) (du : Option String) :
    ∃ r, merge_attachements_into_embed m k d ne du = .ok r
      ∧ r.content = m.content
      ∧ r.id = m.id
      ∧ r.attachments = (partitionAttachments m.attachments).2 := by
  rw [merge_attachements_into_embed]
  set m1 := if m.embeds = [] then { m with embeds := [colorOnlyEmbed] } else m with hm1
  set k1 : Int := if ne then (m1.embeds.length : Int) else k with hk1
  set m2 := if ne then { m1 with embeds := m1.embeds ++ [placeholderEmbed] } else m1 with hm2
  have hm1ne : m1.embeds ≠ [] := by
    rw [hm1]
    by_cases hm : m.embeds = [] <;> simp [hm]
  have hm2ne : m2.embeds ≠ [] := by
    rw [hm2]
    cases ne <;> simp [hm1ne]
  have hm2c : m2.content = m.content := by
    rw [hm2, hm1]
    by_cases hm : m.embeds = [] <;> cases ne <;> simp [hm]
  have hm2a : m2.attachments = m.attachments := by
    rw [hm2, hm1]
    by_cases hm : m.embeds = [] <;> cases ne <;> simp [hm]
  have hm2id : m2.id = m.id := by
    rw [hm2, hm1]
    by_cases hm : m.embeds = [] <;> cases ne <;> simp [hm]
  obtain ⟨r, g, hok, hg, hemb, hc, ha, hid, hlen⟩ := mergeAttCore_spec m2 hm2ne k1 d du
  refine ⟨r, hok, ?_, ?_, ?_⟩
  · rw [hc, hm2c]
  · rw [hid, hm2id]
  · rw [ha, hm2a]

/-- `merge_content_into_embed` (total): the content always ends up empty,
attachments and id are untouched, and the number of cards is the old one,
except that one card is created when there was none. -/
lemma merge_content_spec (m : HMessage) (k : Int) (p : Bool) :
    (merge_content_into_embed m k p).content = ""
    ∧ (merge_content_into_embed m k p).attachments = m.attachments
    ∧ (merge_content_into_embed m k p).id = m.id
    ∧ (merge_content_into_embed m k p).embeds.length = max 1 m.embeds.length := by
  rw [merge_content_into_embed]
  by_cases hm : m.embeds = []
  · simp [hm]
  · have hpos : 0 < m.embeds.length := List.length_pos.mpr hm
    have hbase : (if m.embeds.length = 0 then 1 else m.embeds.length)
        = m.embeds.length := if_neg (by omega)
    have hj : (k % (m.embeds.length : Int)).toNat < m.embeds.length :=
      emod_toNat_lt k m.embeds.length hpos
    have hget : m.embeds[(k % (m.embeds.length : Int)).toNat]?
        = some m.embeds[(k % (m.embeds.length : Int)).toNat] :=
      List.getElem?_eq_getElem hj
    simp only [if_neg hm, hbase, hget]
    refine ⟨trivial, trivial, trivial, ?_⟩
    simp only [List.length_set]
    omega

/-- When `merge_embed_url_as_embed_image_into_embed` raises, it is the
initial raw `self.embeds[embed_no]` read that raised `IndexError`, and the
draft is still exactly the original one. -/
lemma merge_embed_url_error_spec (m : HMessage) (k d : Int) (err : PyError)
    (m2 : HMessage)
    (h : merge_embed_url_as_embed_image_into_embed m k d = .error (err, m2)) :
    m2 = m ∧ err = .indexError := by
  rw [merge_embed_url_as_embed_image_into_embed] at h
  cases hidx : pyIndex? m.embeds k with
  | none =>
    simp only [hidx] at h
    cases h
    exact ⟨rfl, rfl⟩
  | some e =>
    simp only [hidx] at h
    obtain ⟨r, hok, hc, ha, hid, hlen⟩ := merge_url_spec m e.url k d
    simp only [hok] at h
    obtain ⟨j, hj⟩ := pyIndex?_resolve hidx
    obtain ⟨j2, hj2⟩ := pyResolveIdx_mono hlen hj
    obtain ⟨l2, hl2⟩ := pySetUrlNone_isSome hj2
    simp only [hl2] at h
    cases h

/-- A raw index outside the valid Python range raises `IndexError` at the
very first read, leaving the draft untouched. -/
lemma merge_embed_url_out_of_range (m : HMessage) (k d : Int)
    (h : (m.embeds.length : Int) ≤ k ∨ k + (m.embeds.length : Int) < 0) :
    merge_embed_url_as_embed_image_into_embed m k d = .error (.indexError, m) := by
  rw [merge_embed_url_as_embed_image_into_embed,
    pyIndex?_none_of_out m.embeds k h]

lemma mergeUrlCore_mod (m : HMessage) (u : String) (k d : Int) :
    mergeUrlCore m u (k % (m.embeds.length : Int)) d = mergeUrlCore m u k d := by
  unfold mergeUrlCore
  rw [Int.emod_emod_of_dvd k dvd_rfl]

/-- Index wrap-around for `merge_url_as_image_into_embed` on a draft with at
least one card: any integer index acts exactly like its residue modulo the
card count. -/
lemma merge_url_mod (m : HMessage) (hm : m.embeds ≠ []) (u : Option String)
    (k d : Int) :
    merge_url_as_image_into_embed m u (k % (m.embeds.length : Int)) d
      = merge_url_as_image_into_embed m u k d := by
  cases u with
  | none => rfl
  | some u =>
    simp only [merge_url_as_image_into_embed, if_neg hm]
    exact mergeUrlCore_mod m u k d

lemma mergeAttCore_mod (m : HMessage) (k d : Int) (du : Option String) :
    mergeAttCore m (k % (m.embeds.length : Int)) d du = mergeAttCore m k d du := by
  unfold mergeAttCore
  rw [Int.emod_emod_of_dvd k dvd_rfl]

/-- Index wrap-around for `merge_attachements_into_embed` (without
`new_embed`, which ignores the index) on a draft with at least one card. -/
lemma merge_att_mod (m : HMessage) (hm : m.embeds ≠ []) (k d : Int)
    (du : Option String) :
    merge_attachements_into_embed m (k % (m.embeds.length : Int)) d false du
      = merge_attachements_into_embed m k d false du := by
  simp only [merge_attachements_into_embed, if_neg hm, Bool.false_eq_true,
    if_false]
  exact mergeAttCore_mod m k d du

/-- Index wrap-around for `merge_content_into_embed` on a draft with at
least one card. -/
lemma merge_content_mod (m : HMessage) (hm : m.embeds ≠ []) (k : Int) (p : Bool) :
    merge_content_into_embed m (k % (m.embeds.length : Int)) p
      = merge_content_into_embed m k p := by
  unfold merge_content_into_embed
  have hbase : (if m.embeds.length = 0 then 1 else m.embeds.length)
      = m.embeds.length :=
    if_neg (by have := List.length_pos.mpr hm; omega)
  simp only [if_neg hm, hbase]
  rw [Int.emod_emod_of_dvd k dvd_rfl]

/-- Inverting a successful construction: the validators passed and the draft
holds exactly the supplied fields. -/
lemma validate_ok_inv {c : String} {es : List Embed} {ats : List Attachment}
    {i : Int} {m : HMessage} (h : validate c es ats i = .ok m) :
    m = ⟨c, es, ats, i⟩
      ∧ c.toList.length ≤ 2000 ∧ es.length ≤ 10 ∧ ats.length ≤ 10 := by
  unfold validate at h
  split at h
  · cases h
  · rename_i h1
    split at h
    · cases h
    · rename_i h2
      split at h
      · cases h
      · rename_i h3
        cases h
        exact ⟨rfl, by omega, by omega, by omega⟩

/-- Inverting a failed construction: the error is a `ValidationError`
(`ValueError`) and one of the three limits was exceeded. -/
lemma validate_error_inv {c : String} {es : List Embed} {ats : List Attachment}
    {i : Int} {err : PyError} (h : validate c es ats i = .error err) :
    (∃ s, err = .valueError s)
    ∧ (2000 < c.toList.length ∨ 10 < es.length ∨ 10 < ats.length) := by
  unfold validate at h
  split at h
  · rename_i h1
    cases h
    exact ⟨⟨_, rfl⟩, Or.inl (by omega)⟩
  · rename_i h1
    split at h
    · rename_i h2
      cases h
      exact ⟨⟨_, rfl⟩, Or.inr (Or.inl (by omega))⟩
    · rename_i h2
      split at h
      · rename_i h3
        cases h
        exact ⟨⟨_, rfl⟩, Or.inr (Or.inr (by omega))⟩
      · cases h

lemma partitionAttachments_fst (l : List Attachment) :
    (partitionAttachments l).1
      = (l.filter Attachment.isImageTyped).map Attachment.url := by
  induction l with
  | nil => rfl
  | cons a t ih =>
    by_cases h : a.isImageTyped <;>
      simp [partitionAttachments, List.filter_cons, h, ih]

lemma partitionAttachments_snd (l : List Attachment) :
    (partitionAttachments l).2 = l.filter (fun a => !a.isImageTyped) := by
  induction l with
  | nil => rfl
  | cons a t ih =>
    by_cases h : a.isImageTyped <;>
      simp [partitionAttachments, List.filter_cons, h, ih]

/-- When `merge_embed_url_as_embed_image_into_embed` returns normally,
content, attachments and id are untouched. -/
lemma merge_embed_url_ok_spec (m : HMessage) (k d : Int) (r : HMessage)
    (h : merge_embed_url_as_embed_image_into_embed m k d = .ok r) :
    r.content = m.content ∧ r.attachments = m.attachments ∧ r.id = m.id := by
  rw [merge_embed_url_as_embed_image_into_embed] at h
  cases hidx : pyIndex? m.embeds k with
  | none =>
    simp only [hidx] at h
    cases h
  | some e =>
    simp only [hidx] at h
    obtain ⟨r0, hok, hc, ha, hid, hlen⟩ := merge_url_spec m e.url k d
    simp only [hok] at h
    cases hl2 : pySetUrlNone r0.state.embeds k with
    | none =>
      simp only [hl2] at h
      cases h
    | some l2 =>
      simp only [hl2] at h
      cases h
      exact ⟨hc, ha, hid⟩

/-- Provenance of the images after `mergeAttCore`: every image on a card of
the result either reproduces the url of an image already on a card, or is
the url of an image-typed attachment. -/
lemma mergeAttCore_image_provenance (m : HMessage) (hm : m.embeds ≠ [])
    (k d : Int) (du : Option String) (r : HMessage)
    (hr : mergeAttCore m k d du = .ok r) :
    ∀ im : EmbedImage, some im ∈ r.embeds.map Embed.image →
      (∃ e2 ∈ m.embeds, e2.image.map EmbedImage.url = some im.url)
      ∨ im.url ∈ (partitionAttachments m.attachments).1 := by
  obtain ⟨r2, g, hok, hg, hemb, hc, ha, hid, hlen⟩ := mergeAttCore_spec m hm k d du
  rw [hok] at hr
  cases hr
  intro im him
  set j := (k % (m.embeds.length : Int)).toNat with hjdef
  set seed := m.embeds.get ⟨j, emod_toNat_lt k m.embeds.length
    (List.length_pos.mpr hm)⟩ with hseeddef
  have hseedmem : seed ∈ m.embeds := List.get_mem _ _ _
  obtain ⟨g2, hg2, hmap⟩ := MultiImageEmbedList.from_embed_spec seed d
    (partitionAttachments m.attachments).1 du
  rw [hg] at hg2
  cases hg2
  rw [hemb, spliceAt] at him
  simp only [List.map_append, List.mem_append] at him
  have herase : ∀ e2 : Embed, e2 ∈ m.embeds.eraseIdx j → e2 ∈ m.embeds :=
    fun e2 he2 => (List.eraseIdx_sublist m.embeds j).subset he2
  rcases him with (him | him) | him
  · obtain ⟨e2, he2, heq⟩ := List.mem_map.mp him
    exact Or.inl ⟨e2, herase e2 (List.take_subset _ _ he2), by rw [heq]; rfl⟩
  · rw [hmap] at him
    cases hseedimg : seed.image with
    | some im0 =>
      simp only [hseedimg, List.mem_cons] at him
      rcases him with him | him
      · cases him
        exact Or.inl ⟨seed, hseedmem, by rw [hseedimg]; rfl⟩
      · obtain ⟨u, hu, he⟩ := List.mem_map.mp him
        cases he
        exact Or.inr hu
    | none =>
      cases hp1 : (partitionAttachments m.attachments).1 with
      | nil =>
        simp only [hseedimg, hp1] at him
        simp at him
      | cons i rest =>
        simp only [hseedimg, hp1, List.mem_cons] at him
        rcases him with him | him
        · cases him
          exact Or.inr (List.mem_cons_self _ _)
        · obtain ⟨u, hu, he⟩ := List.mem_map.mp him
          cases he
          exact Or.inr (List.mem_cons_of_mem _ hu)
  · obtain ⟨e2, he2, heq⟩ := List.mem_map.mp him
    exact Or.inl ⟨e2, herase e2 (List.drop_subset _ _ he2), by rw [heq]; rfl⟩

end HMessage

lemma HMessageEmbed_from_embed_eq_self (e : Embed) : HMessageEmbed.from_embed e = e :=
  rfl

lemma embedEqImageUrlOnly_refl (a : Embed) : embedEqImageUrlOnly a a = true := by
  simp [embedEqImageUrlOnly]

/-! ### Claim theorems -/

/-- C1 (counterexample): `overflowDraft` passes all three validators (two
cards, ten image-typed attachments), yet `merge_attachements_into_embed`
returns normally with eleven cards: the splice does not re-validate the
ten-card invariant and no `ValidationError` is raised. -/
theorem merge_attachments_can_exceed_ten_cards :
    okEmbedCount (HMessage.merge_attachements_into_embed overflowDraft 0 0 false none)
      = some 11
    ∧ (HMessage.validate overflowDraft.content overflowDraft.embeds
        overflowDraft.attachments overflowDraft.id).isOk = true := by
  exact ⟨by rfl, by rfl⟩

/-- C1 (amended): every merge operation keeps the content within 2000
characters and the attachments within ten (content is only cleared or left
unchanged, attachments only filtered), given a draft that satisfied those
bounds; the ten-card bound, however, is not re-validated by the merges. -/
theorem merge_ops_preserve_content_and_attachment_limits
    (m : HMessage) (hc : m.content.toList.length ≤ 2000)
    (ha : m.attachments.length ≤ 10) :
    (∀ k p, (HMessage.merge_content_into_embed m k p).content.toList.length ≤ 2000
      ∧ (HMessage.merge_content_into_embed m k p).attachments.length ≤ 10)
    ∧ (∀ u k d r, HMessage.merge_url_as_image_into_embed m u k d = .ok r →
        r.state.content.toList.length ≤ 2000 ∧ r.state.attachments.length ≤ 10)
    ∧ (∀ k d ne du r, HMessage.merge_attachements_into_embed m k d ne du = .ok r →
        r.content.toList.length ≤ 2000 ∧ r.attachments.length ≤ 10)
    ∧ (∀ k d r, HMessage.merge_embed_url_as_embed_image_into_embed m k d = .ok r →
        r.content.toList.length ≤ 2000 ∧ r.attachments.length ≤ 10) := by
  refine ⟨?_, ?_, ?_, ?_⟩
  · intro k p
    obtain ⟨h1, h2, _, _⟩ := HMessage.merge_content_spec m k p
    rw [h1, h2]
    exact ⟨by simp, ha⟩
  · intro u k d r h
    obtain ⟨r2, hok, hcc, haa, _, _⟩ := HMessage.merge_url_spec m u k d
    rw [hok] at h
    cases h
    rw [hcc, haa]
    exact ⟨hc, ha⟩
  · intro k d ne du r h
    obtain ⟨r2, hok, hcc, _, haa⟩ := HMessage.merge_att_spec m k d ne du
    rw [hok] at h
    cases h
    rw [hcc, haa, HMessage.partitionAttachments_snd]
    exact ⟨hc, le_trans (List.length_filter_le _ _) ha⟩
  · intro k d r h
    obtain ⟨hcc, haa, _⟩ := HMessage.merge_embed_url_ok_spec m k d r h
    rw [hcc, haa]
    exact ⟨hc, ha⟩

/-- Witness for the amended C1 at a concrete draft. -/
theorem merge_ops_preserve_content_and_attachment_limits_witness :
    (HMessage.merge_content_into_embed draftHi 0 true).content.toList.length ≤ 2000
    ∧ (HMessage.merge_content_into_embed draftHi 0 true).attachments.length ≤ 10 :=
  (merge_ops_preserve_content_and_attachment_limits draftHi (by decide) (by decide)).1
    0 true

/-- C2: no merge operation leaves a partially mutated draft behind a raised
error: `merge_url_as_image_into_embed` and `merge_attachements_into_embed`
always return normally (`merge_content_into_embed` is total by its type),
and when `merge_embed_url_as_embed_image_into_embed` raises, the error is
the initial raw-index `IndexError` and the reported draft is exactly the
original, with content, cards and attachments untouched. -/
theorem merge_raise_leaves_draft_unchanged (m : HMessage) :
    (∀ u k d, ∃ r, HMessage.merge_url_as_image_into_embed m u k d = .ok r)
    ∧ (∀ k d ne du, ∃ r, HMessage.merge_attachements_into_embed m k d ne du = .ok r)
    ∧ (∀ k d err m2, HMessage.merge_embed_url_as_embed_image_into_embed m k d
        = .error (err, m2) → m2 = m ∧ err = .indexError) := by
  refine ⟨?_, ?_, ?_⟩
  · intro u k d
    obtain ⟨r, hok, _⟩ := HMessage.merge_url_spec m u k d
    exact ⟨r, hok⟩
  · intro k d ne du
    obtain ⟨r, hok, _⟩ := HMessage.merge_att_spec m k d ne du
    exact ⟨r, hok⟩
  · intro k d err m2 h
    exact HMessage.merge_embed_url_error_spec m k d err m2 h

/-- Witness for C2: a concrete raising call (raw index 5 on a two-card
draft) reports the draft unchanged, and a concrete url merge returns
normally. -/
theorem merge_raise_leaves_draft_unchanged_witness :
    (twoCardDraft = twoCardDraft ∧ PyError.indexError = PyError.indexError)
    ∧ ∃ r, HMessage.merge_url_as_image_into_embed twoCardDraft
        (some "https://u/1") 7 0 = .ok r :=
  ⟨(merge_raise_leaves_draft_unchanged twoCardDraft).2.2 5 0 .indexError
      twoCardDraft (by rfl),
   (merge_raise_leaves_draft_unchanged twoCardDraft).1 (some "https://u/1") 7 0⟩

/-- C3 (the code, evaluated at the claim's failing input):
`MultiImageEmbedList.from_embed` on a card with no url and no `default_url`
does not raise. `str(None)` turns the absent url into the literal string
"None", so the `url == None` guard never fires and the call returns a group
whose card url is the string "None?designator=0". -/
theorem from_embed_absent_url_returns_group :
    MultiImageEmbedList.from_embed Embed.empty 0 [] none
      = .ok [{ Embed.empty with
          description := some "", url := some "None?designator=0",
          color := some DEFAULT_COLOR }] := by
  rfl

/-- C4 (counterexample): `merge_embed_url_as_embed_image_into_embed` with
index 5 on a two-card draft raises `IndexError` instead of wrapping to
index 5 % 2 = 1. -/
theorem merge_card_url_rejects_index_five_of_two :
    HMessage.merge_embed_url_as_embed_image_into_embed twoCardDraft 5 0
      = .error (.indexError, twoCardDraft) := by
  rfl

/-- C4 (amended): on a draft with at least one card, index wrap-around
(any integer index acts as its residue modulo the card count) holds for
`merge_content_into_embed`, `merge_url_as_image_into_embed` and
`merge_attachements_into_embed` (without `new_embed`, which ignores the
index); `merge_embed_url_as_embed_image_into_embed` instead resolves the
raw Python index and raises `IndexError` outside `[-n, n-1]`. -/
theorem index_wraparound_spec (m : HMessage) (hm : m.embeds ≠ []) :
    (∀ k p, HMessage.merge_content_into_embed m (k % (m.embeds.length : Int)) p
        = HMessage.merge_content_into_embed m k p)
    ∧ (∀ u k d, HMessage.merge_url_as_image_into_embed m u
          (k % (m.embeds.length : Int)) d
        = HMessage.merge_url_as_image_into_embed m u k d)
    ∧ (∀ k d du, HMessage.merge_attachements_into_embed m
          (k % (m.embeds.length : Int)) d false du
        = HMessage.merge_attachements_into_embed m k d false du)
    ∧ (∀ k d, ((m.embeds.length : Int) ≤ k ∨ k + (m.embeds.length : Int) < 0) →
        HMessage.merge_embed_url_as_embed_image_into_embed m k d
          = .error (.indexError, m)) :=
  ⟨fun k p => HMessage.merge_content_mod m hm k p,
   fun u k d => HMessage.merge_url_mod m hm u k d,
   fun k d du => HMessage.merge_att_mod m hm k d du,
   fun k d h => HMessage.merge_embed_url_out_of_range m k d h⟩

/-- Witness for the amended C4 at a two-card draft with logical index 5 (and
a raw out-of-range index 12). -/
theorem index_wraparound_spec_witness :
    HMessage.merge_content_into_embed twoCardDraft (5 % (2 : Int)) true
      = HMessage.merge_content_into_embed twoCardDraft 5 true
    ∧ HMessage.merge_embed_url_as_embed_image_into_embed twoCardDraft 12 0
      = .error (.indexError, twoCardDraft) :=
  ⟨(index_wraparound_spec twoCardDraft (by decide)).1 5 true,
   (index_wraparound_spec twoCardDraft (by decide)).2.2.2 12 0 (by decide)⟩

/-- C5 (counterexample): with a `None` url the merge returns Python `None`
(a bare `return`), not `self`, so call chaining breaks in exactly that
case. -/
theorem merge_none_url_returns_python_none :
    HMessage.merge_url_as_image_into_embed twoCardDraft none 0 0
      = .ok (.noneRet twoCardDraft)
    ∧ HMessage.MergeReturn.noneRet twoCardDraft
        ≠ HMessage.MergeReturn.selfRet twoCardDraft :=
  ⟨rfl, by decide⟩

/-- C5 (amended): merging a `None` url is a warning-only no-op: it never
raises and leaves content, cards and attachments untouched, but it
evaluates to Python `None` rather than `self`. -/
theorem merge_none_url_is_noop (m : HMessage) (k d : Int) :
    HMessage.merge_url_as_image_into_embed m none k d = .ok (.noneRet m) :=
  rfl

/-- C6: whenever `from_message` accepts a wire message, the payload built by
`to_message_kwargs` reproduces the message's content (null content becoming
the empty string), its card sequence under image-url-only card equality, and
its attachment sequence as attachment urls, in order. -/
theorem wire_round_trip (msg : HMessage.WireMessage) (d : HMessage)
    (h : HMessage.from_message msg = .ok d) :
    (HMessage.to_message_kwargs d).content = msg.content.getD ""
    ∧ List.Forall₂ (fun a b => embedEqImageUrlOnly a b = true)
        (HMessage.to_message_kwargs d).embeds msg.embeds
    ∧ (HMessage.to_message_kwargs d).attachments
        = msg.attachments.map (fun a => Attachment.urlOnly a.url) := by
  rw [HMessage.from_message] at h
  obtain ⟨hd, _, _, _⟩ := HMessage.validate_ok_inv h
  subst hd
  refine ⟨?_, ?_, rfl⟩
  · cases hc : msg.content with
    | none => rfl
    | some c =>
      by_cases hce : c = ""
      · simp [HMessage.to_message_kwargs, hc, hce]
      · simp [HMessage.to_message_kwargs, hc, hce]
  · have hmap : msg.embeds.map HMessageEmbed.from_embed = msg.embeds := by
      have hfun : HMessageEmbed.from_embed = fun e => e :=
        funext fun e => HMessageEmbed_from_embed_eq_self e
      rw [hfun]
      exact List.map_id' msg.embeds
    show List.Forall₂ _ (msg.embeds.map HMessageEmbed.from_embed) msg.embeds
    rw [hmap]
    exact List.forall₂_same.mpr (fun x _ => embedEqImageUrlOnly_refl x)

/-- Witness for C6 at a concrete wire message. -/
theorem wire_round_trip_witness :
    (HMessage.to_message_kwargs wireDraft).content = wireMsg.content.getD ""
    ∧ List.Forall₂ (fun a b => embedEqImageUrlOnly a b = true)
        (HMessage.to_message_kwargs wireDraft).embeds wireMsg.embeds
    ∧ (HMessage.to_message_kwargs wireDraft).attachments
        = wireMsg.attachments.map (fun a => Attachment.urlOnly a.url) :=
  wire_round_trip wireMsg wireDraft (by rfl)

/-- C7: building a group from a seed card and k ≥ 1 image urls yields
exactly k cards when the seed has no image — each card carrying exactly one
image, assigned greedily in input order — and k+1 cards when the seed
already has an image (its url re-seeds the first card's slot). -/
theorem group_image_assignment (e : Embed) (d : Int) (images : List String)
    (du : Option String) (hne : images ≠ []) :
    (e.image = none →
      ∃ g, MultiImageEmbedList.from_embed e d images du = .ok g
        ∧ g.length = images.length
        ∧ g.map Embed.image = images.map (fun s => some (mkImage s)))
    ∧ (∀ im0, e.image = some im0 →
      ∃ g, MultiImageEmbedList.from_embed e d images du = .ok g
        ∧ g.length = images.length + 1
        ∧ g.map Embed.image
          = some (mkImage im0.url) :: images.map (fun s => some (mkImage s))) := by
  obtain ⟨g, hok, hmap⟩ := MultiImageEmbedList.from_embed_spec e d images du
  constructor
  · intro him
    simp only [him] at hmap
    cases images with
    | nil => exact absurd rfl hne
    | cons i rest =>
      refine ⟨g, hok, ?_, ?_⟩
      · have hlen := congrArg List.length hmap
        simp only [List.length_map, List.length_cons] at hlen ⊢
        omega
      · simpa using hmap
  · intro im0 him
    simp only [him] at hmap
    refine ⟨g, hok, ?_, hmap⟩
    have hlen := congrArg List.length hmap
    simp only [List.length_map, List.length_cons] at hlen ⊢
    omega

/-- Witness for C7: a seed card with no image and two image urls yields a
two-card group, one image per card, in input order. -/
theorem group_image_assignment_witness :
    ∃ g, MultiImageEmbedList.from_embed cardA 0 ["https://i/1", "https://i/2"] none
        = .ok g
      ∧ g.length = 2
      ∧ g.map Embed.image
        = [some (mkImage "https://i/1"), some (mkImage "https://i/2")] := by
  obtain ⟨g, hok, hlen, hmap⟩ :=
    (group_image_assignment cardA 0 ["https://i/1", "https://i/2"] none
      (by decide)).1 rfl
  exact ⟨g, hok, hlen, by simpa using hmap⟩

/-- C8: concatenating two drafts joins the contents with a single newline —
omitted exactly when the left content ends with a newline or the right one
starts with one — concatenates cards and attachments in order, and
re-validates: a returned draft satisfies all three limits, and a raised
error is a `ValidationError` reached exactly when a limit is exceeded. -/
theorem draft_concat_spec (a b : HMessage) :
    (∀ m, HMessage.add a b = .ok m →
      m.content = (if a.content.toList.getLast? = some (Char.ofNat 10)
            ∨ b.content.toList.head? = some (Char.ofNat 10)
          then a.content ++ b.content
          else a.content ++ "\n" ++ b.content)
      ∧ m.embeds = a.embeds ++ b.embeds
      ∧ m.attachments = a.attachments ++ b.attachments
      ∧ m.content.toList.length ≤ 2000
      ∧ m.embeds.length ≤ 10
      ∧ m.attachments.length ≤ 10)
    ∧ (∀ err, HMessage.add a b = .error err →
      (∃ s, err = .valueError s)
      ∧ (2000 < ((if a.content.toList.getLast? = some (Char.ofNat 10)
              ∨ b.content.toList.head? = some (Char.ofNat 10)
            then a.content ++ b.content
            else a.content ++ "\n" ++ b.content)).toList.length
        ∨ 10 < (a.embeds ++ b.embeds).length
        ∨ 10 < (a.attachments ++ b.attachments).length)) := by
  have hjoin : (a.content
        ++ (if !(a.content.toList.getLast? == some (Char.ofNat 10)
              || b.content.toList.head? == some (Char.ofNat 10))
            then "\n" else "")
        ++ b.content)
      = (if a.content.toList.getLast? = some (Char.ofNat 10)
            ∨ b.content.toList.head? = some (Char.ofNat 10)
          then a.content ++ b.content
          else a.content ++ "\n" ++ b.content) := by
    by_cases hp : a.content.toList.getLast? = some (Char.ofNat 10)
        ∨ b.content.toList.head? = some (Char.ofNat 10)
    · rw [if_pos hp]
      have hb : (a.content.toList.getLast? == some (Char.ofNat 10)
          || b.content.toList.head? == some (Char.ofNat 10)) = true := by
        rcases hp with h | h
        · rw [h]
          simp
        · rw [h]
          simp
      rw [hb]
      simp
    · rw [if_neg hp]
      push_neg at hp
      have hb : (a.content.toList.getLast? == some (Char.ofNat 10)
          || b.content.toList.head? == some (Char.ofNat 10)) = false := by
        simp only [Bool.or_eq_false_iff, beq_eq_false_iff_ne, ne_eq]
        exact ⟨hp.1, hp.2⟩
      rw [hb]
      simp
  have hadd : HMessage.add a b
      = HMessage.validate
          (if a.content.toList.getLast? = some (Char.ofNat 10)
              ∨ b.content.toList.head? = some (Char.ofNat 10)
            then a.content ++ b.content
            else a.content ++ "\n" ++ b.content)
          (a.embeds ++ b.embeds) (a.attachments ++ b.attachments) 0 := by
    rw [HMessage.add]
    rw [hjoin]
  constructor
  · intro m h
    rw [hadd] at h
    obtain ⟨hm, h1, h2, h3⟩ := HMessage.validate_ok_inv h
    subst hm
    exact ⟨rfl, rfl, rfl, h1, h2, h3⟩
  · intro err h
    rw [hadd] at h
    exact HMessage.validate_error_inv h

/-- Witness for C8: the spec's worked example, draft "foo" with one card
plus draft "bar\n" with one card. -/
theorem draft_concat_spec_witness :
    HMessage.add draftFoo draftBarNl = .ok fooBarDraft
    ∧ fooBarDraft.content = "foo\nbar\n"
    ∧ (fooBarDraft.content
        = (if draftFoo.content.toList.getLast? = some (Char.ofNat 10)
              ∨ draftBarNl.content.toList.head? = some (Char.ofNat 10)
            then draftFoo.content ++ draftBarNl.content
            else draftFoo.content ++ "\n" ++ draftBarNl.content)
      ∧ fooBarDraft.embeds = draftFoo.embeds ++ draftBarNl.embeds
      ∧ fooBarDraft.attachments = draftFoo.attachments ++ draftBarNl.attachments
      ∧ fooBarDraft.content.toList.length ≤ 2000
      ∧ fooBarDraft.embeds.length ≤ 10
      ∧ fooBarDraft.attachments.length ≤ 10) :=
  ⟨by rfl, by rfl,
   (draft_concat_spec draftFoo draftBarNl).1 fooBarDraft (by rfl)⟩

/-- C9: on a draft with no cards, `merge_content_into_embed` creates exactly
one card whose description is the (possibly empty) content, clears the
content, and touches nothing else. -/
theorem merge_content_empty_draft_creates_card (m : HMessage)
    (hm : m.embeds = []) (k : Int) (p : Bool) :
    (HMessage.merge_content_into_embed m k p).content = ""
    ∧ (HMessage.merge_content_into_embed m k p).embeds.length = 1
    ∧ (HMessage.merge_content_into_embed m k p).embeds.map Embed.description
        = [some m.content]
    ∧ (HMessage.merge_content_into_embed m k p).attachments = m.attachments
    ∧ (HMessage.merge_content_into_embed m k p).id = m.id := by
  rw [HMessage.merge_content_into_embed]
  simp [hm, descriptionEmbed]

/-- `merge_attachements_into_embed` reduced to its core: the pre-processed
draft keeps the attachments, and every card it adds (the auto-created
default card, the `new_embed` placeholder) has no image. -/
lemma merge_att_to_core (m : HMessage) (k d : Int) (ne : Bool) (du : Option String) :
    ∃ m2 k1, HMessage.merge_attachements_into_embed m k d ne du
        = HMessage.mergeAttCore m2 k1 d du
      ∧ m2.embeds ≠ []
      ∧ m2.attachments = m.attachments
      ∧ (∀ e2, e2 ∈ m2.embeds → e2 ∈ m.embeds ∨ e2.image = none) := by
  cases ne with
  | false =>
    by_cases hm : m.embeds = []
    · refine ⟨{ m with embeds := [colorOnlyEmbed] }, k, ?_, by simp, rfl, ?_⟩
      · simp [HMessage.merge_attachements_into_embed, hm]
      · intro e2 he2
        simp only [List.mem_singleton] at he2
        subst he2
        exact Or.inr rfl
    · refine ⟨m, k, ?_, hm, rfl, fun e2 he2 => Or.inl he2⟩
      simp [HMessage.merge_attachements_into_embed, hm]
  | true =>
    by_cases hm : m.embeds = []
    · refine ⟨{ m with embeds := [colorOnlyEmbed, placeholderEmbed] }, 1, ?_,
        by simp, rfl, ?_⟩
      · simp [HMessage.merge_attachements_into_embed, hm]
      · intro e2 he2
        simp only [List.mem_cons, List.mem_singleton] at he2
        rcases he2 with he2 | he2 | he2
        · subst he2
          exact Or.inr rfl
        · subst he2
          exact Or.inr rfl
        · simp at he2
    · refine ⟨{ m with embeds := m.embeds ++ [placeholderEmbed] },
        (m.embeds.length : Int), ?_, by simp, rfl, ?_⟩
      · simp [HMessage.merge_attachements_into_embed, hm]
      · intro e2 he2
        rcases List.mem_append.mp he2 with h1 | h1
        · exact Or.inl h1
        · simp only [List.mem_singleton] at h1
          subst h1
          exact Or.inr rfl

/-- C10: an attachment without a `media_type` attribute — in particular the
bare url strings `from_message` stores — is never classified as an image by
`merge_attachements_into_embed`: it always survives into the remaining
attachment list, and every image placed on a card comes either from an image
already on a card or from an image-typed attachment, never from a bare url
attachment's classification. -/
theorem untyped_attachments_stay_attachments (m : HMessage) (k d : Int)
    (ne : Bool) (du : Option String) (r : HMessage)
    (h : HMessage.merge_attachements_into_embed m k d ne du = .ok r) :
    r.attachments = m.attachments.filter (fun a => !a.isImageTyped)
    ∧ (∀ u, Attachment.isImageTyped (.urlOnly u) = false)
    ∧ (∀ u, Attachment.urlOnly u ∈ m.attachments →
        Attachment.urlOnly u ∈ r.attachments)
    ∧ (∀ im : EmbedImage, some im ∈ r.embeds.map Embed.image →
        (∃ e2 ∈ m.embeds, e2.image.map EmbedImage.url = some im.url)
        ∨ im.url ∈ (m.attachments.filter Attachment.isImageTyped).map
            Attachment.url) := by
  obtain ⟨r2, hok, hcc, hid, haa⟩ := HMessage.merge_att_spec m k d ne du
  have hrr : r2 = r := by
    have h2 := hok.symm.trans h
    cases h2
    rfl
  subst hrr
  have hatt : r2.attachments = m.attachments.filter (fun a => !a.isImageTyped) := by
    rw [haa, HMessage.partitionAttachments_snd]
  refine ⟨hatt, fun u => rfl, ?_, ?_⟩
  · intro u hu
    rw [hatt]
    exact List.mem_filter.mpr ⟨hu, rfl⟩
  · intro im him
    obtain ⟨m2, k1, heq, hm2ne, hm2att, hm2e⟩ := merge_att_to_core m k d ne du
    rw [heq] at h
    have hprov := HMessage.mergeAttCore_image_provenance m2 hm2ne k1 d du r2 h im him
    rcases hprov with ⟨e2, he2, heqq⟩ | hmem
    · rcases hm2e e2 he2 with h1 | h1
      · exact Or.inl ⟨e2, h1, heqq⟩
      · rw [h1] at heqq
        simp at heqq
    · right
      rw [hm2att, HMessage.partitionAttachments_fst] at hmem
      exact hmem

/-- Witness for C10: one card, one image-typed attachment, one bare-url
attachment: the bare url stays an attachment and the one image on the
result's card is the typed attachment's url. -/
theorem untyped_attachments_stay_attachments_witness :
    mixedResult.attachments
      = mixedDraft.attachments.filter (fun a => !a.isImageTyped)
    ∧ (∀ u, Attachment.isImageTyped (.urlOnly u) = false)
    ∧ (∀ u, Attachment.urlOnly u ∈ mixedDraft.attachments →
        Attachment.urlOnly u ∈ mixedResult.attachments)
    ∧ (∀ im : EmbedImage, some im ∈ mixedResult.embeds.map Embed.image →
        (∃ e2 ∈ mixedDraft.embeds, e2.image.map EmbedImage.url = some im.url)
        ∨ im.url ∈ (mixedDraft.attachments.filter Attachment.isImageTyped).map
            Attachment.url) :=
  untyped_attachments_stay_attachments mixedDraft 0 0 false none mixedResult (by rfl)

/-- Witness for C9: the spec's example, content "hi" and no cards. -/
theorem merge_content_empty_draft_creates_card_witness :
    (HMessage.merge_content_into_embed draftHi 0 true).content = ""
    ∧ (HMessage.merge_content_into_embed draftHi 0 true).embeds.length = 1
    ∧ (HMessage.merge_content_into_embed draftHi 0 true).embeds.map Embed.description
        = [some draftHi.content]
    ∧ (HMessage.merge_content_into_embed draftHi 0 true).attachments
        = draftHi.attachments
    ∧ (HMessage.merge_content_into_embed draftHi 0 true).id = draftHi.id :=
  merge_content_empty_draft_creates_card draftHi rfl 0 true

end HMsg
